import Mathlib

/-!
Shallow embedding of the WalletAI ledger core and proofs about it.

The embedding covers three subsystems of the repository:

* the debt-settlement algorithm of
  `src/models/shared_wallet.py` (`DebtCalculationService.calculate_settlements`),
* the recurring-transaction sweep of `src/main.py`
  (`process_recurring_transactions`) together with the rule-creation handler
  `save_recurring` of `src/handlers/recurring.py`,
* the balance aggregation of `src/services/transaction_service.py`
  (`TransactionService.get_balance`).

Monetary amounts are modelled as integers (`Int`): the source stores them as
exact decimals (`Numeric(_, 2)` / `Decimal`), whose arithmetic on the
operations used here (addition, subtraction, negation, `min`, comparisons)
coincides with integer arithmetic on minor units.  Python dicts iterate in
insertion order, so a balance mapping is modelled as an association list
`List (Nat × Int)`; a genuine mapping has `Nodup` keys.
-/

namespace WalletAI

/-- Output value object of the settlement engine, mirroring the
`Settlement` dataclass: `debtor` pays `amount` to `creditor`. -/
structure Settlement where
  debtor : Nat
  creditor : Nat
  amount : Int
deriving DecidableEq

/-- Insert a `(member, amount)` pair into a list that is sorted descending by
amount, placing the new pair before the first entry whose amount is not
larger.  Folding this over a list from the right yields exactly the stable
descending sort that Python's `list.sort(key=lambda x: x[1], reverse=True)`
performs on the creditor/debtor lists. -/
def insertDescByAmount (p : Nat × Int) : List (Nat × Int) → List (Nat × Int)
  | [] => [p]
  | q :: qs => if p.2 < q.2 then q :: insertDescByAmount p qs else p :: q :: qs

/-- Stable sort, descending by amount: the embedding of
`creditors.sort(key=lambda x: x[1], reverse=True)` (Python sorts are stable,
and `reverse=True` keeps equal elements in their original order). -/
def sortDescByAmount (l : List (Nat × Int)) : List (Nat × Int) :=
  l.foldr insertDescByAmount []

/-- The `while creditors and debtors` loop of `calculate_settlements`:
pop the front creditor and debtor, transfer `min credit debt`, and re-insert
at the front whichever party has a remainder. -/
def settleLoop : List (Nat × Int) → List (Nat × Int) → List Settlement
  | [], _ => []
  | _ :: _, [] => []
  | (creditor, credit) :: cs, (debtor, debt) :: ds =>
    let t := min credit debt
    Settlement.mk debtor creditor t ::
      (if debt < credit then settleLoop ((creditor, credit - t) :: cs) ds
       else if credit < debt then settleLoop cs ((debtor, debt - t) :: ds)
       else settleLoop cs ds)
termination_by cs ds => cs.length + ds.length
decreasing_by all_goals (simp [List.length_cons]; try omega)

/-- Embedding of `DebtCalculationService.calculate_settlements` (the algorithm
body, applied to the balance mapping it reads): split the balances into
creditors and debtors, sort both descending by amount, and run the greedy
matching loop. -/
def calculate_settlements (balances : List (Nat × Int)) : List Settlement :=
  let creditors := balances.filter (fun p => 0 < p.2)
  let debtors := (balances.filter (fun p => p.2 < 0)).map (fun p => (p.1, -p.2))
  settleLoop (sortDescByAmount creditors) (sortDescByAmount debtors)

/-- Sum of the amounts of a settlement list. -/
def totalAmount (ss : List Settlement) : Int :=
  (ss.map (fun s => s.amount)).sum

/-- Total amount member `m` pays as the `debtor` of settlements in `ss`. -/
def paidBy (m : Nat) (ss : List Settlement) : Int :=
  ((ss.filter (fun s => s.debtor == m)).map (fun s => s.amount)).sum

/-- Total amount member `m` receives as the `creditor` of settlements in `ss`. -/
def receivedBy (m : Nat) (ss : List Settlement) : Int :=
  ((ss.filter (fun s => s.creditor == m)).map (fun s => s.amount)).sum

/-- Sum of the amounts attached to key `m` in an association list. -/
def keySum (m : Nat) (l : List (Nat × Int)) : Int :=
  ((l.filter (fun p => p.1 == m)).map (fun p => p.2)).sum

/-- Sum of all amounts in an association list. -/
def sumVals (l : List (Nat × Int)) : Int :=
  (l.map (fun p => p.2)).sum

/-- Execute one settlement against a balance mapping: the debtor pays
`amount`, which raises their (negative) net balance by `amount`, and the
creditor is paid, which lowers their (positive) claim by `amount`. -/
def applySettlement (bal : List (Nat × Int)) (s : Settlement) : List (Nat × Int) :=
  bal.map fun p =>
    if p.1 = s.debtor then (p.1, p.2 + s.amount)
    else if p.1 = s.creditor then (p.1, p.2 - s.amount)
    else p

/-- Execute a list of settlements in order against a balance mapping. -/
def applySettlements (bal : List (Nat × Int)) (ss : List Settlement) : List (Nat × Int) :=
  ss.foldl applySettlement bal

@[simp] theorem sumVals_nil : sumVals [] = 0 := rfl

@[simp] theorem sumVals_cons (p : Nat × Int) (l : List (Nat × Int)) :
    sumVals (p :: l) = p.2 + sumVals l := by
  simp [sumVals]

@[simp] theorem keySum_nil (m : Nat) : keySum m [] = 0 := rfl

@[simp] theorem keySum_cons (m : Nat) (p : Nat × Int) (l : List (Nat × Int)) :
    keySum m (p :: l) = (if p.1 = m then p.2 else 0) + keySum m l := by
  by_cases h : p.1 = m <;> simp [keySum, List.filter_cons, h]

@[simp] theorem totalAmount_nil : totalAmount [] = 0 := rfl

@[simp] theorem totalAmount_cons (s : Settlement) (ss : List Settlement) :
    totalAmount (s :: ss) = s.amount + totalAmount ss := by
  simp [totalAmount]

@[simp] theorem paidBy_nil (m : Nat) : paidBy m [] = 0 := rfl

@[simp] theorem paidBy_cons (m : Nat) (s : Settlement) (ss : List Settlement) :
    paidBy m (s :: ss) = (if s.debtor = m then s.amount else 0) + paidBy m ss := by
  by_cases h : s.debtor = m <;> simp [paidBy, List.filter_cons, h]

@[simp] theorem receivedBy_nil (m : Nat) : receivedBy m [] = 0 := rfl

@[simp] theorem receivedBy_cons (m : Nat) (s : Settlement) (ss : List Settlement) :
    receivedBy m (s :: ss) = (if s.creditor = m then s.amount else 0) + receivedBy m ss := by
  by_cases h : s.creditor = m <;> simp [receivedBy, List.filter_cons, h]

theorem sumVals_nonneg (l : List (Nat × Int)) (h : ∀ p ∈ l, 0 < p.2) :
    0 ≤ sumVals l := by
  induction l with
  | nil => simp
  | cons p l ih =>
    have hp := h p (by simp)
    have := ih (fun q hq => h q (by simp [hq]))
    simp only [sumVals_cons]
    omega

theorem sumVals_pos (l : List (Nat × Int)) (h : ∀ p ∈ l, 0 < p.2) (hne : l ≠ []) :
    0 < sumVals l := by
  cases l with
  | nil => simp at hne
  | cons p l =>
    have hp := h p (by simp)
    have := sumVals_nonneg l (fun q hq => h q (by simp [hq]))
    simp only [sumVals_cons]
    omega

theorem insertDescByAmount_perm (p : Nat × Int) (l : List (Nat × Int)) :
    List.Perm (insertDescByAmount p l) (p :: l) := by
  induction l with
  | nil => simp [insertDescByAmount]
  | cons q qs ih =>
    simp only [insertDescByAmount]
    split
    · exact ((ih.cons q).trans (List.Perm.swap p q qs))
    · exact List.Perm.refl _

theorem sortDescByAmount_perm (l : List (Nat × Int)) :
    List.Perm (sortDescByAmount l) l := by
  induction l with
  | nil => simp [sortDescByAmount]
  | cons p l ih =>
    exact (insertDescByAmount_perm p (sortDescByAmount l)).trans (ih.cons p)

theorem keySum_of_perm (m : Nat) {l₁ l₂ : List (Nat × Int)} (h : List.Perm l₁ l₂) :
    keySum m l₁ = keySum m l₂ :=
  ((h.filter _).map _).sum_eq

theorem sumVals_of_perm {l₁ l₂ : List (Nat × Int)} (h : List.Perm l₁ l₂) :
    sumVals l₁ = sumVals l₂ :=
  (h.map _).sum_eq

theorem settleLoop_length (cs ds : List (Nat × Int)) :
    (settleLoop cs ds).length ≤ cs.length + ds.length - 1 := by
  induction cs, ds using settleLoop.induct with
  | case1 ds => simp [settleLoop]
  | case2 c cs => simp [settleLoop]
  | case3 creditor credit cs debtor debt ds t ih1 ih2 ih3 =>
    have ht : t = min credit debt := rfl
    rw [settleLoop]
    simp only [← ht, List.length_cons] at *
    split
    · omega
    · split
      · omega
      · omega

theorem settleLoop_amount_pos (cs ds : List (Nat × Int)) :
    (∀ p ∈ cs, 0 < p.2) → (∀ p ∈ ds, 0 < p.2) →
    ∀ s ∈ settleLoop cs ds, 0 < s.amount := by
  induction cs, ds using settleLoop.induct with
  | case1 ds => intro _ _ s hs; simp [settleLoop] at hs
  | case2 c cs => intro _ _ s hs; simp [settleLoop] at hs
  | case3 creditor credit cs debtor debt ds t ih1 ih2 ih3 =>
    intro hc hd s hs
    have hcredit : 0 < credit := hc (creditor, credit) (by simp)
    have hdebt : 0 < debt := hd (debtor, debt) (by simp)
    have ht : t = min credit debt := rfl
    rw [settleLoop] at hs
    simp only [← ht] at hs
    rcases List.mem_cons.mp hs with h | h
    · subst h
      simp only
      omega
    · split at h
      · refine ih1 ?_ (fun p hp => hd p (List.mem_cons_of_mem _ hp)) s h
        intro p hp
        rcases List.mem_cons.mp hp with h' | h'
        · subst h'; simp only; omega
        · exact hc p (List.mem_cons_of_mem _ h')
      · split at h
        · refine ih2 (fun p hp => hc p (List.mem_cons_of_mem _ hp)) ?_ s h
          intro p hp
          rcases List.mem_cons.mp hp with h' | h'
          · subst h'; simp only; omega
          · exact hd p (List.mem_cons_of_mem _ h')
        · exact ih3 (fun p hp => hc p (List.mem_cons_of_mem _ hp))
            (fun p hp => hd p (List.mem_cons_of_mem _ hp)) s h

theorem settleLoop_keys (cs ds : List (Nat × Int)) :
    ∀ s ∈ settleLoop cs ds,
      s.creditor ∈ cs.map Prod.fst ∧ s.debtor ∈ ds.map Prod.fst := by
  induction cs, ds using settleLoop.induct with
  | case1 ds => intro s hs; simp [settleLoop] at hs
  | case2 c cs => intro s hs; simp [settleLoop] at hs
  | case3 creditor credit cs debtor debt ds t ih1 ih2 ih3 =>
    intro s hs
    have ht : t = min credit debt := rfl
    rw [settleLoop] at hs
    simp only [← ht] at hs
    rcases List.mem_cons.mp hs with h | h
    · subst h; simp
    · split at h
      · obtain ⟨h1, h2⟩ := ih1 s h
        simp only [List.map_cons] at h1 ⊢
        exact ⟨h1, List.mem_cons_of_mem _ h2⟩
      · split at h
        · obtain ⟨h1, h2⟩ := ih2 s h
          simp only [List.map_cons] at h2 ⊢
          exact ⟨List.mem_cons_of_mem _ h1, h2⟩
        · obtain ⟨h1, h2⟩ := ih3 s h
          exact ⟨List.mem_cons_of_mem _ h1, List.mem_cons_of_mem _ h2⟩

theorem settleLoop_main (cs ds : List (Nat × Int)) :
    (∀ p ∈ cs, 0 < p.2) → (∀ p ∈ ds, 0 < p.2) → sumVals cs = sumVals ds →
    totalAmount (settleLoop cs ds) = sumVals cs ∧
    (∀ m, receivedBy m (settleLoop cs ds) = keySum m cs) ∧
    (∀ m, paidBy m (settleLoop cs ds) = keySum m ds) := by
  induction cs, ds using settleLoop.induct with
  | case1 ds =>
    intro _ hd hsum
    have hds : ds = [] := by
      by_contra hne
      have := sumVals_pos ds hd hne
      simp only [sumVals_nil] at hsum
      omega
    subst hds
    simp [settleLoop]
  | case2 c cs =>
    intro hc _ hsum
    have := sumVals_pos (c :: cs) hc (by simp)
    simp only [sumVals_nil] at hsum
    omega
  | case3 creditor credit cs debtor debt ds t ih1 ih2 ih3 =>
    intro hc hd hsum
    have hcredit : 0 < credit := hc (creditor, credit) (by simp)
    have hdebt : 0 < debt := hd (debtor, debt) (by simp)
    have ht : t = min credit debt := rfl
    simp only [sumVals_cons] at hsum
    rw [settleLoop]
    simp only [← ht]
    split
    · rename_i hlt
      have ht' : t = debt := by rw [ht]; omega
      obtain ⟨iht, ihr, ihp⟩ := ih1
        (by
          intro p hp
          rcases List.mem_cons.mp hp with h' | h'
          · subst h'; simp only; omega
          · exact hc p (List.mem_cons_of_mem _ h'))
        (fun p hp => hd p (List.mem_cons_of_mem _ hp))
        (by simp only [sumVals_cons]; omega)
      refine ⟨?_, ?_, ?_⟩
      · simp only [totalAmount_cons, sumVals_cons, iht]
        omega
      · intro m
        simp only [receivedBy_cons, ihr m, keySum_cons]
        by_cases hm : creditor = m <;> simp only [hm, if_true, if_false] <;> omega
      · intro m
        simp only [paidBy_cons, ihp m, keySum_cons]
        by_cases hm : debtor = m <;> simp only [hm, if_true, if_false] <;> omega
    · split
      · rename_i hlt
        have ht' : t = credit := by rw [ht]; omega
        obtain ⟨iht, ihr, ihp⟩ := ih2
          (fun p hp => hc p (List.mem_cons_of_mem _ hp))
          (by
            intro p hp
            rcases List.mem_cons.mp hp with h' | h'
            · subst h'; simp only; omega
            · exact hd p (List.mem_cons_of_mem _ h'))
          (by simp only [sumVals_cons]; omega)
        refine ⟨?_, ?_, ?_⟩
        · simp only [totalAmount_cons, sumVals_cons, iht]
          omega
        · intro m
          simp only [receivedBy_cons, ihr m, keySum_cons]
          by_cases hm : creditor = m <;> simp only [hm, if_true, if_false] <;> omega
        · intro m
          simp only [paidBy_cons, ihp m, keySum_cons]
          by_cases hm : debtor = m <;> simp only [hm, if_true, if_false] <;> omega
      · rename_i h1 h2
        have heq : credit = debt := by omega
        have ht' : t = credit := by rw [ht]; omega
        obtain ⟨iht, ihr, ihp⟩ := ih3
          (fun p hp => hc p (List.mem_cons_of_mem _ hp))
          (fun p hp => hd p (List.mem_cons_of_mem _ hp))
          (by omega)
        refine ⟨?_, ?_, ?_⟩
        · simp only [totalAmount_cons, sumVals_cons, iht]
          omega
        · intro m
          simp only [receivedBy_cons, ihr m, keySum_cons]
          by_cases hm : creditor = m <;> simp only [hm, if_true, if_false] <;> omega
        · intro m
          simp only [paidBy_cons, ihp m, keySum_cons]
          by_cases hm : debtor = m <;> simp only [hm, if_true, if_false] <;> omega

theorem keySum_eq_zero_of_not_mem (m : Nat) (l : List (Nat × Int))
    (h : m ∉ l.map Prod.fst) : keySum m l = 0 := by
  induction l with
  | nil => simp
  | cons p l ih =>
    simp only [List.map_cons, List.mem_cons] at h
    push_neg at h
    have h1 : p.1 ≠ m := fun hh => h.1 hh.symm
    rw [keySum_cons, if_neg h1, ih h.2, zero_add]

theorem keyVal_unique (l : List (Nat × Int)) (h : (l.map Prod.fst).Nodup) :
    ∀ p ∈ l, ∀ q ∈ l, p.1 = q.1 → p.2 = q.2 := by
  induction l with
  | nil => intro p hp; simp at hp
  | cons r l ih =>
    simp only [List.map_cons, List.nodup_cons] at h
    intro p hp q hq hpq
    rcases List.mem_cons.mp hp with e₁ | e₁ <;> rcases List.mem_cons.mp hq with e₂ | e₂
    · rw [e₁, e₂]
    · exfalso
      apply h.1
      rw [← e₁, hpq]
      exact List.mem_map.mpr ⟨q, e₂, rfl⟩
    · exfalso
      apply h.1
      rw [← e₂, ← hpq]
      exact List.mem_map.mpr ⟨p, e₁, rfl⟩
    · exact ih h.2 p e₁ q e₂ hpq

theorem keySum_filter_of_nodup (l : List (Nat × Int)) (h : (l.map Prod.fst).Nodup)
    (f : Nat × Int → Bool) (p : Nat × Int) (hmem : p ∈ l) :
    keySum p.1 (l.filter f) = if f p then p.2 else 0 := by
  induction l with
  | nil => simp at hmem
  | cons r l ih =>
    simp only [List.map_cons, List.nodup_cons] at h
    rcases List.mem_cons.mp hmem with e | e
    · subst e
      have hk : p.1 ∉ (l.filter f).map Prod.fst := by
        intro hmm
        rcases List.mem_map.mp hmm with ⟨q, hq, hq1⟩
        exact h.1 (hq1 ▸ List.mem_map.mpr ⟨q, List.mem_of_mem_filter hq, rfl⟩)
      have hz : keySum p.1 (l.filter f) = 0 := keySum_eq_zero_of_not_mem _ _ hk
      rw [List.filter_cons]
      by_cases hf : f p
      · rw [if_pos hf, if_pos hf, keySum_cons, if_pos rfl, hz, add_zero]
      · rw [if_neg hf, if_neg hf, hz]
    · have hr : r.1 ≠ p.1 := by
        intro hh
        exact h.1 (hh ▸ List.mem_map.mpr ⟨p, e, rfl⟩)
      rw [List.filter_cons]
      by_cases hf : f r
      · rw [if_pos hf, keySum_cons, if_neg hr, ih h.2 e, zero_add]
      · rw [if_neg hf, ih h.2 e]

theorem keySum_negMap (m : Nat) (l : List (Nat × Int)) :
    keySum m (l.map (fun p => (p.1, -p.2))) = -keySum m l := by
  induction l with
  | nil => simp
  | cons p l ih =>
    simp only [List.map_cons, keySum_cons, ih]
    by_cases hm : p.1 = m <;> simp only [hm, if_true, if_false] <;> ring

theorem sumVals_filter_split (l : List (Nat × Int)) :
    sumVals (l.filter (fun p => 0 < p.2)) =
      sumVals ((l.filter (fun p => p.2 < 0)).map (fun p => (p.1, -p.2))) + sumVals l := by
  induction l with
  | nil => simp
  | cons p l ih =>
    by_cases h1 : 0 < p.2
    · rw [List.filter_cons_of_pos (by simpa using h1),
        List.filter_cons_of_neg (by simp; omega), sumVals_cons, sumVals_cons]
      omega
    · by_cases h2 : p.2 < 0
      · rw [List.filter_cons_of_neg (by simpa using h1),
          List.filter_cons_of_pos (by simpa using h2), List.map_cons, sumVals_cons, sumVals_cons]
        omega
      · rw [List.filter_cons_of_neg (by simpa using h1),
          List.filter_cons_of_neg (by simp; omega), sumVals_cons]
        omega

theorem filter_length_split (l : List (Nat × Int)) :
    (l.filter (fun p => 0 < p.2)).length + (l.filter (fun p => p.2 < 0)).length =
      (l.filter (fun p => p.2 ≠ 0)).length := by
  induction l with
  | nil => rfl
  | cons p l ih =>
    by_cases h1 : 0 < p.2
    · rw [List.filter_cons_of_pos (by simpa using h1),
        List.filter_cons_of_neg (by simp; omega),
        List.filter_cons_of_pos (by simp; omega), List.length_cons, List.length_cons]
      omega
    · by_cases h2 : p.2 < 0
      · rw [List.filter_cons_of_neg (by simpa using h1),
          List.filter_cons_of_pos (by simpa using h2),
          List.filter_cons_of_pos (by simp; omega), List.length_cons, List.length_cons]
        omega
      · rw [List.filter_cons_of_neg (by simpa using h1),
          List.filter_cons_of_neg (by simpa using h2),
          List.filter_cons_of_neg (by simp; omega)]
        omega

theorem applySettlements_eq_map (ss : List Settlement) (bal : List (Nat × Int))
    (hne : ∀ s ∈ ss, s.debtor ≠ s.creditor) :
    applySettlements bal ss =
      bal.map (fun p => (p.1, p.2 + paidBy p.1 ss - receivedBy p.1 ss)) := by
  induction ss generalizing bal with
  | nil => simp [applySettlements]
  | cons s ss ih =>
    have hs := hne s (by simp)
    have h1 : applySettlements bal (s :: ss) = applySettlements (applySettlement bal s) ss := rfl
    rw [h1, ih _ (fun x hx => hne x (List.mem_cons_of_mem _ hx))]
    rw [applySettlement, List.map_map]
    congr 1
    funext p
    simp only [Function.comp, paidBy_cons, receivedBy_cons]
    by_cases hd : p.1 = s.debtor
    · have hc : ¬ p.1 = s.creditor := fun hcc => hs (hd.symm.trans hcc)
      rw [if_pos hd, if_pos hd.symm, if_neg (fun hh => hc hh.symm)]
      simp only [Prod.mk.injEq, true_and]
      ring
    · by_cases hc : p.1 = s.creditor
      · rw [if_neg hd, if_pos hc, if_neg (fun hh => hd hh.symm), if_pos hc.symm]
        simp only [Prod.mk.injEq, true_and]
        ring
      · rw [if_neg hd, if_neg hc, if_neg (fun hh => hd hh.symm), if_neg (fun hh => hc hh.symm)]
        simp only [Prod.mk.injEq, true_and]
        ring

theorem insertDescByAmount_pairwise (p : Nat × Int) (l : List (Nat × Int))
    (h : l.Pairwise (fun a b => b.2 ≤ a.2)) :
    (insertDescByAmount p l).Pairwise (fun a b => b.2 ≤ a.2) := by
  induction l with
  | nil => simp [insertDescByAmount]
  | cons q qs ih =>
    rcases List.pairwise_cons.mp h with ⟨hq, hqs⟩
    simp only [insertDescByAmount]
    split
    · rename_i hlt
      refine List.pairwise_cons.mpr ⟨?_, ih hqs⟩
      intro a ha
      rcases List.mem_cons.mp ((insertDescByAmount_perm p qs).mem_iff.mp ha) with h' | h'
      · subst h'; omega
      · exact hq a h'
    · rename_i hge
      refine List.pairwise_cons.mpr ⟨?_, h⟩
      intro a ha
      rcases List.mem_cons.mp ha with h' | h'
      · subst h'; omega
      · have := hq a h'; omega

theorem sortDescByAmount_pairwise (l : List (Nat × Int)) :
    (sortDescByAmount l).Pairwise (fun a b => b.2 ≤ a.2) := by
  induction l with
  | nil => simp [sortDescByAmount]
  | cons p l ih => exact insertDescByAmount_pairwise p _ ih

theorem insertDescByAmount_filter_eq (p : Nat × Int) (l : List (Nat × Int)) (a : Int) :
    (insertDescByAmount p l).filter (fun q => q.2 = a) =
      if p.2 = a then p :: l.filter (fun q => q.2 = a)
      else l.filter (fun q => q.2 = a) := by
  induction l with
  | nil =>
    by_cases hpa : p.2 = a
    · rw [if_pos hpa]
      simp [insertDescByAmount, List.filter_cons, hpa]
    · rw [if_neg hpa]
      simp [insertDescByAmount, List.filter_cons, hpa]
  | cons q qs ih =>
    simp only [insertDescByAmount]
    split
    · rename_i hlt
      by_cases hpa : p.2 = a
      · have hqa : ¬ q.2 = a := by omega
        rw [if_pos hpa, List.filter_cons_of_neg (by simpa using hqa), ih, if_pos hpa,
          List.filter_cons_of_neg (by simpa using hqa)]
      · rw [if_neg hpa]
        by_cases hqa : q.2 = a
        · rw [List.filter_cons_of_pos (by simpa using hqa), ih, if_neg hpa,
            List.filter_cons_of_pos (by simpa using hqa)]
        · rw [List.filter_cons_of_neg (by simpa using hqa), ih, if_neg hpa,
            List.filter_cons_of_neg (by simpa using hqa)]
    · by_cases hpa : p.2 = a
      · rw [if_pos hpa, List.filter_cons_of_pos (by simpa using hpa)]
      · rw [if_neg hpa, List.filter_cons_of_neg (by simpa using hpa)]

theorem sortDescByAmount_stable (l : List (Nat × Int)) (a : Int) :
    (sortDescByAmount l).filter (fun q => q.2 = a) = l.filter (fun q => q.2 = a) := by
  induction l with
  | nil => rfl
  | cons p l ih =>
    have hrw : sortDescByAmount (p :: l) = insertDescByAmount p (sortDescByAmount l) := rfl
    rw [hrw, insertDescByAmount_filter_eq]
    by_cases hpa : p.2 = a
    · rw [if_pos hpa, ih, List.filter_cons_of_pos (by simpa using hpa)]
    · rw [if_neg hpa, ih, List.filter_cons_of_neg (by simpa using hpa)]

/-- C1: for every balance mapping whose values sum to exactly zero, applying
every settlement returned by `calculate_settlements` — the debtor
(`from`-member) pays the amount, the creditor (`to`-member) is paid — returns
every member's balance to exactly zero, and the sum of all settlement amounts
equals the total positive balance. -/
theorem calculate_settlements_zeroes_balances (bal : List (Nat × Int))
    (hkeys : (bal.map Prod.fst).Nodup) (hsum : sumVals bal = 0) :
    (∀ mb ∈ applySettlements bal (calculate_settlements bal), mb.2 = 0) ∧
    totalAmount (calculate_settlements bal) =
      sumVals (bal.filter (fun p => 0 < p.2)) := by
  classical
  have hsort_c := sortDescByAmount_perm (bal.filter (fun p => 0 < p.2))
  have hsort_d :=
    sortDescByAmount_perm ((bal.filter (fun p => p.2 < 0)).map (fun p => (p.1, -p.2)))
  have hpos_c : ∀ p ∈ sortDescByAmount (bal.filter (fun p => 0 < p.2)), 0 < p.2 := by
    intro p hp
    have hmem : p ∈ bal.filter (fun p => 0 < p.2) := hsort_c.mem_iff.mp hp
    simpa using List.of_mem_filter hmem
  have hpos_d : ∀ p ∈ sortDescByAmount
      ((bal.filter (fun p => p.2 < 0)).map (fun p => (p.1, -p.2))), 0 < p.2 := by
    intro p hp
    have hmem : p ∈ (bal.filter (fun p => p.2 < 0)).map (fun p => (p.1, -p.2)) :=
      hsort_d.mem_iff.mp hp
    rcases List.mem_map.mp hmem with ⟨q, hq, rfl⟩
    have : q.2 < 0 := by simpa using List.of_mem_filter hq
    simp only
    omega
  have hsums : sumVals (sortDescByAmount (bal.filter (fun p => 0 < p.2))) =
      sumVals (sortDescByAmount
        ((bal.filter (fun p => p.2 < 0)).map (fun p => (p.1, -p.2)))) := by
    rw [sumVals_of_perm hsort_c, sumVals_of_perm hsort_d]
    have hsplit := sumVals_filter_split bal
    omega
  obtain ⟨htot, hrecv, hpaid⟩ := settleLoop_main _ _ hpos_c hpos_d hsums
  have hss : calculate_settlements bal =
      settleLoop (sortDescByAmount (bal.filter (fun p => 0 < p.2)))
        (sortDescByAmount ((bal.filter (fun p => p.2 < 0)).map (fun p => (p.1, -p.2)))) := rfl
  have hne : ∀ s ∈ calculate_settlements bal, s.debtor ≠ s.creditor := by
    intro s hsmem heq
    obtain ⟨h1, h2⟩ := settleLoop_keys _ _ s (hss ▸ hsmem)
    have h1' : s.creditor ∈ (bal.filter (fun p => 0 < p.2)).map Prod.fst :=
      ((hsort_c.map Prod.fst).mem_iff).mp h1
    have h2' : s.debtor ∈
        ((bal.filter (fun p => p.2 < 0)).map (fun p => (p.1, -p.2))).map Prod.fst :=
      ((hsort_d.map Prod.fst).mem_iff).mp h2
    rcases List.mem_map.mp h1' with ⟨p, hp, hp1⟩
    rcases List.mem_map.mp h2' with ⟨q, hq, hq1⟩
    rcases List.mem_map.mp hq with ⟨q', hq', rfl⟩
    have hpbal : p ∈ bal := List.mem_of_mem_filter hp
    have hqbal : q' ∈ bal := List.mem_of_mem_filter hq'
    have hppos : 0 < p.2 := by simpa using List.of_mem_filter hp
    have hqneg : q'.2 < 0 := by simpa using List.of_mem_filter hq'
    have hk : p.1 = q'.1 := by
      rw [hp1, ← heq, ← hq1]
    have := keyVal_unique bal hkeys p hpbal q' hqbal hk
    omega
  refine ⟨?_, ?_⟩
  · intro mb hmb
    rw [applySettlements_eq_map _ _ hne] at hmb
    rcases List.mem_map.mp hmb with ⟨p, hp, rfl⟩
    simp only
    have hrecv' : receivedBy p.1 (calculate_settlements bal) =
        if (fun p => decide (0 < p.2)) p then p.2 else 0 := by
      rw [hss, hrecv p.1, keySum_of_perm _ hsort_c,
        keySum_filter_of_nodup bal hkeys _ p hp]
    have hpaid' : paidBy p.1 (calculate_settlements bal) =
        -(if (fun p => decide (p.2 < 0)) p then p.2 else 0) := by
      rw [hss, hpaid p.1, keySum_of_perm _ hsort_d, keySum_negMap,
        keySum_filter_of_nodup bal hkeys _ p hp]
    rw [hrecv', hpaid']
    simp only [decide_eq_true_eq]
    by_cases h1 : 0 < p.2
    · rw [if_pos h1, if_neg (by omega)]
      ring
    · by_cases h2 : p.2 < 0
      · rw [if_neg h1, if_pos h2]
        ring
      · rw [if_neg h1, if_neg h2]
        omega
  · rw [hss, htot, sumVals_of_perm hsort_c]

/-- Witness for C1 at the concrete mapping A ↦ +300, B ↦ +200, C ↦ -500. -/
theorem calculate_settlements_zeroes_balances_witness :
    (∀ mb ∈ applySettlements [((1 : Nat), (300 : Int)), (2, 200), (3, -500)]
        (calculate_settlements [(1, 300), (2, 200), (3, -500)]), mb.2 = 0) ∧
    totalAmount (calculate_settlements [((1 : Nat), (300 : Int)), (2, 200), (3, -500)]) =
      sumVals ([((1 : Nat), (300 : Int)), (2, 200), (3, -500)].filter (fun p => 0 < p.2)) :=
  calculate_settlements_zeroes_balances [(1, 300), (2, 200), (3, -500)]
    (by decide) (by decide)

theorem settleLoop_nil_right (cs : List (Nat × Int)) : settleLoop cs [] = [] := by
  cases cs <;> simp [settleLoop]

/-- C2 counterexample: `calculate_settlements` has no conservation check.  On
the mapping {1 ↦ +5, 2 ↦ -2}, whose values sum to 3 ≠ 0, it raises no error
and returns a (non-empty) settlement plan; on the lone nonzero balance
{1 ↦ +5} it silently returns the empty plan instead of failing. -/
theorem calculate_settlements_no_imbalance_check :
    sumVals [((1 : Nat), (5 : Int)), (2, -2)] ≠ 0 ∧
    calculate_settlements [((1 : Nat), (5 : Int)), (2, -2)] = [Settlement.mk 2 1 2] ∧
    sumVals [((1 : Nat), (5 : Int))] ≠ 0 ∧
    calculate_settlements [((1 : Nat), (5 : Int))] = [] := by
  refine ⟨by decide, ?_, by decide, ?_⟩
  · simp [calculate_settlements, sortDescByAmount, insertDescByAmount, settleLoop, min_def]
  · simp [calculate_settlements, sortDescByAmount, insertDescByAmount, settleLoop]

/-- C2 amended: `calculate_settlements` performs no balance-sum check and can
never fail; an input that violates conservation is fed to the same greedy
loop.  In particular a mapping with no negative balance — a lone nonzero
balance included — is silently dropped, yielding the empty plan, rather than
rejected with an `ImbalancedLedger` error. -/
theorem calculate_settlements_drops_one_sided (bal : List (Nat × Int))
    (h : ∀ p ∈ bal, 0 ≤ p.2) :
    calculate_settlements bal = [] := by
  have hfe : bal.filter (fun p => p.2 < 0) = [] := by
    rw [List.filter_eq_nil_iff]
    intro p hp
    have := h p hp
    simp only [decide_eq_true_eq]
    omega
  have hss : calculate_settlements bal =
      settleLoop (sortDescByAmount (bal.filter (fun p => 0 < p.2)))
        (sortDescByAmount ((bal.filter (fun p => p.2 < 0)).map (fun p => (p.1, -p.2)))) := rfl
  rw [hss, hfe]
  exact settleLoop_nil_right _

/-- Witness for the amended C2 at the mapping {7 ↦ +5, 8 ↦ 0}. -/
theorem calculate_settlements_drops_one_sided_witness :
    calculate_settlements [((7 : Nat), (5 : Int)), (8, 0)] = [] :=
  calculate_settlements_drops_one_sided [(7, 5), (8, 0)] (by decide)

theorem creditors_sorted_pos (bal : List (Nat × Int)) :
    ∀ p ∈ sortDescByAmount (bal.filter (fun p => 0 < p.2)), 0 < p.2 := by
  intro p hp
  have hmem : p ∈ bal.filter (fun p => 0 < p.2) :=
    (sortDescByAmount_perm _).mem_iff.mp hp
  simpa using List.of_mem_filter hmem

theorem debtors_sorted_pos (bal : List (Nat × Int)) :
    ∀ p ∈ sortDescByAmount ((bal.filter (fun p => p.2 < 0)).map (fun p => (p.1, -p.2))),
      0 < p.2 := by
  intro p hp
  have hmem : p ∈ (bal.filter (fun p => p.2 < 0)).map (fun p => (p.1, -p.2)) :=
    (sortDescByAmount_perm _).mem_iff.mp hp
  rcases List.mem_map.mp hmem with ⟨q, hq, rfl⟩
  have : q.2 < 0 := by simpa using List.of_mem_filter hq
  simp only
  omega

/-- C7: for every balance mapping whose values sum to zero with N
participants of nonzero balance, `calculate_settlements` returns at most
N - 1 settlements, and every emitted settlement has a strictly positive
amount. -/
theorem calculate_settlements_bound (bal : List (Nat × Int))
    (hkeys : (bal.map Prod.fst).Nodup) (hsum : sumVals bal = 0) :
    (calculate_settlements bal).length ≤ (bal.filter (fun p => p.2 ≠ 0)).length - 1 ∧
    ∀ s ∈ calculate_settlements bal, 0 < s.amount := by
  have hss : calculate_settlements bal =
      settleLoop (sortDescByAmount (bal.filter (fun p => 0 < p.2)))
        (sortDescByAmount ((bal.filter (fun p => p.2 < 0)).map (fun p => (p.1, -p.2)))) := rfl
  constructor
  · have hlen := settleLoop_length
      (sortDescByAmount (bal.filter (fun p => 0 < p.2)))
      (sortDescByAmount ((bal.filter (fun p => p.2 < 0)).map (fun p => (p.1, -p.2))))
    have hc := (sortDescByAmount_perm (bal.filter (fun p => 0 < p.2))).length_eq
    have hd := (sortDescByAmount_perm
      ((bal.filter (fun p => p.2 < 0)).map (fun p => (p.1, -p.2)))).length_eq
    have hmap : ((bal.filter (fun p => p.2 < 0)).map (fun p => (p.1, -p.2))).length
        = (bal.filter (fun p => p.2 < 0)).length := List.length_map _ _
    have hsplit := filter_length_split bal
    rw [hss]
    omega
  · intro s hs
    exact settleLoop_amount_pos _ _ (creditors_sorted_pos bal) (debtors_sorted_pos bal)
      s (hss ▸ hs)

/-- Witness for C7 at the mapping {4 ↦ +100, 5 ↦ -40, 6 ↦ -60}. -/
theorem calculate_settlements_bound_witness :
    (calculate_settlements [((4 : Nat), (100 : Int)), (5, -40), (6, -60)]).length ≤
      ([((4 : Nat), (100 : Int)), (5, -40), (6, -60)].filter (fun p => p.2 ≠ 0)).length - 1 ∧
    ∀ s ∈ calculate_settlements [((4 : Nat), (100 : Int)), (5, -40), (6, -60)],
      0 < s.amount :=
  calculate_settlements_bound [(4, 100), (5, -40), (6, -60)] (by decide) (by decide)

/-- Insertion step for the sort the spec describes for claim C8: descending by
amount, ties broken by ascending member identifier. -/
def insertDescTie (p : Nat × Int) : List (Nat × Int) → List (Nat × Int)
  | [] => [p]
  | q :: qs =>
    if p.2 < q.2 ∨ (p.2 = q.2 ∧ q.1 < p.1) then q :: insertDescTie p qs else p :: q :: qs

/-- Modelled from the spec's words (claim C8, for comparison with the code):
sort descending by amount, breaking ties in amount by ascending member
identifier. -/
def sortDescTieBreak (l : List (Nat × Int)) : List (Nat × Int) :=
  l.foldr insertDescTie []

/-- Modelled from the spec's words (claim C8, for comparison with the code):
the settlement computation as claimed, with the identifier tie-break in the
sorting of creditors and debtors. -/
def calculate_settlements_spec (balances : List (Nat × Int)) : List Settlement :=
  let creditors := balances.filter (fun p => 0 < p.2)
  let debtors := (balances.filter (fun p => p.2 < 0)).map (fun p => (p.1, -p.2))
  settleLoop (sortDescTieBreak creditors) (sortDescTieBreak debtors)

/-- C8 counterexample: on the mapping with insertion order
[2 ↦ +5, 1 ↦ +5, 3 ↦ -10], the two creditors tie at 5; the code keeps them
in insertion order (member 2 first), while the claimed ascending-identifier
tie-break would put member 1 first, so the code's settlement list differs
from the claimed one. -/
theorem calculate_settlements_tiebreak_cex :
    calculate_settlements [((2 : Nat), (5 : Int)), (1, 5), (3, -10)] =
      [Settlement.mk 3 2 5, Settlement.mk 3 1 5] ∧
    calculate_settlements_spec [((2 : Nat), (5 : Int)), (1, 5), (3, -10)] =
      [Settlement.mk 3 1 5, Settlement.mk 3 2 5] ∧
    calculate_settlements [((2 : Nat), (5 : Int)), (1, 5), (3, -10)] ≠
      calculate_settlements_spec [((2 : Nat), (5 : Int)), (1, 5), (3, -10)] := by
  refine ⟨?_, ?_, ?_⟩
  · simp [calculate_settlements, sortDescByAmount, insertDescByAmount, settleLoop, min_def]
  · simp [calculate_settlements_spec, sortDescTieBreak, insertDescTie, settleLoop, min_def]
  · intro hcontra
    have h1 : calculate_settlements [((2 : Nat), (5 : Int)), (1, 5), (3, -10)] =
        [Settlement.mk 3 2 5, Settlement.mk 3 1 5] := by
      simp [calculate_settlements, sortDescByAmount, insertDescByAmount, settleLoop, min_def]
    have h2 : calculate_settlements_spec [((2 : Nat), (5 : Int)), (1, 5), (3, -10)] =
        [Settlement.mk 3 1 5, Settlement.mk 3 2 5] := by
      simp [calculate_settlements_spec, sortDescTieBreak, insertDescTie, settleLoop, min_def]
    rw [h1, h2] at hcontra
    simp at hcontra

/-- C8 amended: the code sorts creditors and debtors descending by amount
with a stable sort — members whose amounts tie keep the mapping's insertion
order; there is no identifier tie-break — and `calculate_settlements` is a
pure function, so repeated calls on the same mapping return the identical
settlement list. -/
theorem calculate_settlements_sort_deterministic :
    (∀ l : List (Nat × Int), (sortDescByAmount l).Pairwise (fun a b => b.2 ≤ a.2)) ∧
    (∀ l : List (Nat × Int), List.Perm (sortDescByAmount l) l) ∧
    (∀ (l : List (Nat × Int)) (a : Int),
      (sortDescByAmount l).filter (fun q => q.2 = a) = l.filter (fun q => q.2 = a)) ∧
    (∀ bal : List (Nat × Int), calculate_settlements bal = calculate_settlements bal) :=
  ⟨sortDescByAmount_pairwise, sortDescByAmount_perm, sortDescByAmount_stable,
    fun _ => rfl⟩

/-- Calendar date at day granularity.  The source works with `datetime`
values; every property proved below is about whole days, on which
`timedelta`/`replace` arithmetic agrees with this model. -/
structure Date where
  year : Nat
  month : Nat
  day : Nat
deriving DecidableEq

/-- Gregorian leap-year rule, as implemented by Python's `datetime`. -/
def isLeap (y : Nat) : Bool :=
  (y % 4 == 0 && !(y % 100 == 0)) || (y % 400 == 0)

/-- Number of days in a month of a given year (Gregorian calendar). -/
def daysInMonth (y m : Nat) : Nat :=
  if m == 2 then (if isLeap y then 29 else 28)
  else if m == 4 || m == 6 || m == 9 || m == 11 then 30
  else 31

/-- The day after `d`. -/
def nextDay (d : Date) : Date :=
  if d.day < daysInMonth d.year d.month then ⟨d.year, d.month, d.day + 1⟩
  else if d.month < 12 then ⟨d.year, d.month + 1, 1⟩
  else ⟨d.year + 1, 1, 1⟩

/-- Embedding of `d + timedelta(days=n)`. -/
def addDays (d : Date) : Nat → Date
  | 0 => d
  | n + 1 => addDays (nextDay d) n

/-- Date comparison, the day-granularity embedding of
`next_execution <= now`. -/
def dateLe (a b : Date) : Bool :=
  decide (a.year < b.year) ||
    (a.year == b.year &&
      (decide (a.month < b.month) || (a.month == b.month && decide (a.day ≤ b.day))))

/-- The transaction-type enumeration of `src/models/transaction.py`
(`INCOME`, `EXPENSE`, `TRANSFER`). -/
inductive TransactionType where
  | income
  | expense
  | transfer
deriving DecidableEq

/-- A row of the `transactions` table, restricted to the fields the verified
code paths read or write. -/
structure Transaction where
  user_id : Nat
  category_id : Option Nat
  amount : Int
  transaction_type : TransactionType
  description : Option String
  date : Date
deriving DecidableEq

/-- A row of the `recurring_transactions` table
(`src/models/recurring.py`).  `frequency` is a raw string column. -/
structure RecurringTransaction where
  user_id : Nat
  category_id : Option Nat
  amount : Int
  transaction_type : TransactionType
  description : Option String
  frequency : String
  next_execution : Date
  last_execution : Option Date
  is_active : Bool
deriving DecidableEq

/-- Python's f-string renders a missing description as the text None. -/
def descrText : Option String → String
  | some s => s
  | none => "None"

/-- The `Transaction(...)` constructed for a firing rule in
`process_recurring_transactions` (`src/main.py`, lines 114-122). -/
def materializeTransaction (now : Date) (r : RecurringTransaction) : Transaction :=
  { user_id := r.user_id, category_id := r.category_id, amount := r.amount,
    transaction_type := r.transaction_type,
    description := some ("[Recurring] " ++ descrText r.description),
    date := now }

/-- Embedding of Python's `date.replace(year=y)`: `none` models the
`ValueError` raised when the day does not exist in the target year
(Feb 29 replaced into a non-leap year). -/
def replaceYear (d : Date) (y : Nat) : Option Date :=
  if d.day ≤ daysInMonth y d.month then some ⟨y, d.month, d.day⟩ else none

/-- The `monthly` branch of the sweep (`src/main.py`, lines 129-136):
`now.replace(month=next_month, year=next_year,
day=min(recurring.next_execution.day, 28))`.  The result is always a valid
date because the day is clamped to at most 28. -/
def nextMonthClamped (now : Date) (prevDay : Nat) : Date :=
  if now.month < 12 then ⟨now.year, now.month + 1, min prevDay 28⟩
  else ⟨now.year + 1, 1, min prevDay 28⟩

/-- The rule mutation performed inside the per-rule `try` block of
`process_recurring_transactions` (`src/main.py`, lines 124-140): the
`if`/`elif` chain on the frequency string followed by
`recurring.last_execution = now`.  An unknown frequency falls through the
chain, so only `last_execution` is set; a `yearly` rule whose `replace`
raises (`none` case) leaves the rule untouched because the exception skips
the rest of the block. -/
def advanceRecurring (now : Date) (r : RecurringTransaction) : RecurringTransaction :=
  if r.frequency == "daily" then
    { r with next_execution := addDays now 1, last_execution := some now }
  else if r.frequency == "weekly" then
    { r with next_execution := addDays now 7, last_execution := some now }
  else if r.frequency == "monthly" then
    { r with
      next_execution := nextMonthClamped now r.next_execution.day,
      last_execution := some now }
  else if r.frequency == "yearly" then
    match replaceYear now (now.year + 1) with
    | some d => { r with next_execution := d, last_execution := some now }
    | none => r
  else
    { r with last_execution := some now }

/-- One due rule's processing inside the sweep: the materialized transaction
is added to the session before the frequency dispatch, so it is produced on
every path — also for unknown frequencies and for the failing `yearly`
`replace` (the session is committed afterwards either way). -/
def processRule (now : Date) (r : RecurringTransaction) :
    List Transaction × RecurringTransaction :=
  ([materializeTransaction now r], advanceRecurring now r)

/-- The per-rule behaviour of one sweep iteration: rules that are not active
or not yet due are untouched (they are excluded by the `where` clause of the
query in `src/main.py`, lines 104-109). -/
def sweepRule (now : Date) (r : RecurringTransaction) :
    List Transaction × RecurringTransaction :=
  if r.is_active && dateLe r.next_execution now then processRule now r else ([], r)

/-- One iteration of the `while True` loop of
`process_recurring_transactions` (`src/main.py`): the transactions created
and the updated rule set of a single sweep at time `now`. -/
def process_recurring_transactions (now : Date)
    (rules : List RecurringTransaction) :
    List Transaction × List RecurringTransaction :=
  (rules.foldr (fun r acc => (sweepRule now r).1 ++ acc) [],
   rules.map (fun r => (sweepRule now r).2))

/-- Embedding of the `save_recurring` handler
(`src/handlers/recurring.py`, lines 218-230): the new rule is created with
`next_execution = datetime.now() + timedelta(days=1)` and `is_active=True`,
whatever the chosen frequency. -/
def save_recurring (now : Date) (user_id : Nat) (category_id : Option Nat)
    (amount : Int) (transaction_type : TransactionType)
    (description : Option String) (frequency : String) : RecurringTransaction :=
  { user_id := user_id, category_id := category_id, amount := amount,
    transaction_type := transaction_type, description := description,
    frequency := frequency, next_execution := addDays now 1,
    last_execution := none, is_active := true }

theorem dateLe_refl (d : Date) : dateLe d d = true := by
  simp [dateLe]

theorem daysInMonth_ge (y m : Nat) : 28 ≤ daysInMonth y m := by
  rw [daysInMonth]
  split
  · split <;> omega
  · split <;> omega

theorem sweepRule_fires (now : Date) (r : RecurringTransaction)
    (hact : r.is_active = true) (hdue : dateLe r.next_execution now = true) :
    sweepRule now r = processRule now r := by
  simp [sweepRule, hact, hdue]

theorem dateLe_nextDay (d : Date) : dateLe d (nextDay d) = true := by
  rw [nextDay]
  split
  · simp [dateLe]
  · split
    · simp [dateLe]
    · simp [dateLe]

theorem dateLe_trans {a b c : Date} (h1 : dateLe a b = true)
    (h2 : dateLe b c = true) : dateLe a c = true := by
  simp only [dateLe, Bool.or_eq_true, Bool.and_eq_true, decide_eq_true_eq,
    beq_iff_eq] at h1 h2 ⊢
  omega

/-- A monthly rule due on Jan 31, 2024 (a leap year), used for claim C3. -/
def ruleJan31 : RecurringTransaction :=
  { user_id := 1, category_id := some 2, amount := 100,
    transaction_type := TransactionType.expense, description := some "rent",
    frequency := "monthly", next_execution := ⟨2024, 1, 31⟩,
    last_execution := none, is_active := true }

/-- The same rule due on Mar 31, 2024, used for claim C3. -/
def ruleMar31 : RecurringTransaction :=
  { ruleJan31 with next_execution := ⟨2024, 3, 31⟩ }

/-- C3 counterexample: the monthly advance always clamps the day to 28, not
to the last valid day of the target month.  A rule due Jan 31 of the leap
year 2024, swept on Jan 31, advances to Feb 28 — not the claimed Feb 29 —
and a rule due Mar 31, swept on Mar 31, advances to Apr 28 — not Apr 30,
the last valid day of April. -/
theorem monthly_clamp_cex :
    isLeap 2024 = true ∧
    (sweepRule ⟨2024, 1, 31⟩ ruleJan31).2.next_execution = ⟨2024, 2, 28⟩ ∧
    Date.mk 2024 2 28 ≠ Date.mk 2024 2 29 ∧
    daysInMonth 2024 4 = 30 ∧
    (sweepRule ⟨2024, 3, 31⟩ ruleMar31).2.next_execution = ⟨2024, 4, 28⟩ ∧
    Date.mk 2024 4 28 ≠ Date.mk 2024 4 30 := by
  decide

/-- C3 amended: for every Monthly rule the sweep fires, the new next_due_at
lies in the month after the sweep time `now` (January of the next year when
`now` is in December), with day-of-month `min(previous next_due_at's day,
28)` — the clamp is a fixed 28 regardless of the target month's length —
and this is always a valid calendar date. -/
theorem monthly_advance_clamps_at_28 (now : Date) (r : RecurringTransaction)
    (hact : r.is_active = true) (hdue : dateLe r.next_execution now = true)
    (hfreq : r.frequency = "monthly")
    (hday : 1 ≤ r.next_execution.day) (hm2 : now.month ≤ 12) :
    (sweepRule now r).2.next_execution =
      (if now.month < 12 then
        Date.mk now.year (now.month + 1) (min r.next_execution.day 28)
      else Date.mk (now.year + 1) 1 (min r.next_execution.day 28)) ∧
    1 ≤ (sweepRule now r).2.next_execution.day ∧
    (sweepRule now r).2.next_execution.day ≤
      daysInMonth (sweepRule now r).2.next_execution.year
        (sweepRule now r).2.next_execution.month ∧
    1 ≤ (sweepRule now r).2.next_execution.month ∧
    (sweepRule now r).2.next_execution.month ≤ 12 := by
  have hne : (sweepRule now r).2.next_execution =
      nextMonthClamped now r.next_execution.day := by
    rw [sweepRule_fires now r hact hdue]
    show (advanceRecurring now r).next_execution = _
    rw [advanceRecurring, hfreq]
    simp
  rw [hne]
  have h28a := daysInMonth_ge now.year (now.month + 1)
  have h28b := daysInMonth_ge (now.year + 1) 1
  rw [nextMonthClamped]
  split
  · exact ⟨rfl, by simp only; omega, by simp only; omega, by simp only; omega,
      by simp only; omega⟩
  · exact ⟨rfl, by simp only; omega, by simp only; omega, by simp only; omega,
      by simp only; omega⟩

/-- Witness for the amended C3: the Jan 31 rule swept on Jan 31 in 2024. -/
theorem monthly_advance_clamps_at_28_witness :
    (sweepRule ⟨2024, 1, 31⟩ ruleJan31).2.next_execution =
      (if (1 : Nat) < 12 then
        Date.mk 2024 (1 + 1) (min ruleJan31.next_execution.day 28)
      else Date.mk (2024 + 1) 1 (min ruleJan31.next_execution.day 28)) ∧
    1 ≤ (sweepRule ⟨2024, 1, 31⟩ ruleJan31).2.next_execution.day ∧
    (sweepRule ⟨2024, 1, 31⟩ ruleJan31).2.next_execution.day ≤
      daysInMonth (sweepRule ⟨2024, 1, 31⟩ ruleJan31).2.next_execution.year
        (sweepRule ⟨2024, 1, 31⟩ ruleJan31).2.next_execution.month ∧
    1 ≤ (sweepRule ⟨2024, 1, 31⟩ ruleJan31).2.next_execution.month ∧
    (sweepRule ⟨2024, 1, 31⟩ ruleJan31).2.next_execution.month ≤ 12 :=
  monthly_advance_clamps_at_28 ⟨2024, 1, 31⟩ ruleJan31 rfl (by decide) rfl
    (by decide) (by decide)

/-- A daily rule due on Jan 1, 2024, used for claim C4. -/
def ruleDailyJan1 : RecurringTransaction :=
  { ruleJan31 with frequency := "daily", next_execution := ⟨2024, 1, 1⟩ }

/-- C4 counterexample: a daily rule due Jan 1 that is swept (with delay) on
Jan 5 gets next_due_at Jan 6 — computed from the sweep time — whereas the
claim (previous next_due_at + 1 day) demands Jan 2; the delayed sweep
permanently shifts the cadence. -/
theorem advance_from_now_cex :
    (sweepRule ⟨2024, 1, 5⟩ ruleDailyJan1).2.next_execution = ⟨2024, 1, 6⟩ ∧
    addDays ruleDailyJan1.next_execution 1 = ⟨2024, 1, 2⟩ ∧
    Date.mk 2024 1 6 ≠ Date.mk 2024 1 2 := by
  decide

/-- C4 amended: for every rule the sweep fires, the new next_due_at is
computed from the sweep time `now` — daily: now + 1 day, weekly: now + 7
days, monthly: the month after `now` (only the day-of-month clamp reads the
previous next_due_at), yearly: `now` with year + 1 when that date exists —
so a delayed sweep shifts the rule's cadence to the sweep time. -/
theorem advance_computed_from_now (now : Date) (r : RecurringTransaction)
    (hact : r.is_active = true) (hdue : dateLe r.next_execution now = true) :
    (r.frequency = "daily" → (sweepRule now r).2.next_execution = addDays now 1) ∧
    (r.frequency = "weekly" → (sweepRule now r).2.next_execution = addDays now 7) ∧
    (r.frequency = "monthly" → (sweepRule now r).2.next_execution =
      nextMonthClamped now r.next_execution.day) ∧
    (r.frequency = "yearly" → now.day ≤ daysInMonth (now.year + 1) now.month →
      (sweepRule now r).2.next_execution = ⟨now.year + 1, now.month, now.day⟩) := by
  rw [sweepRule_fires now r hact hdue]
  refine ⟨?_, ?_, ?_, ?_⟩
  · intro hfreq
    show (advanceRecurring now r).next_execution = _
    rw [advanceRecurring, hfreq]
    simp
  · intro hfreq
    show (advanceRecurring now r).next_execution = _
    rw [advanceRecurring, hfreq]
    simp
  · intro hfreq
    show (advanceRecurring now r).next_execution = _
    rw [advanceRecurring, hfreq]
    simp
  · intro hfreq hvalid
    show (advanceRecurring now r).next_execution = _
    rw [advanceRecurring, hfreq]
    simp [replaceYear, hvalid]

/-- Witness for the amended C4: the daily rule due Jan 1 swept on Jan 5. -/
theorem advance_computed_from_now_witness :
    (ruleDailyJan1.frequency = "daily" →
      (sweepRule ⟨2024, 1, 5⟩ ruleDailyJan1).2.next_execution =
        addDays ⟨2024, 1, 5⟩ 1) ∧
    (ruleDailyJan1.frequency = "weekly" →
      (sweepRule ⟨2024, 1, 5⟩ ruleDailyJan1).2.next_execution =
        addDays ⟨2024, 1, 5⟩ 7) ∧
    (ruleDailyJan1.frequency = "monthly" →
      (sweepRule ⟨2024, 1, 5⟩ ruleDailyJan1).2.next_execution =
        nextMonthClamped ⟨2024, 1, 5⟩ ruleDailyJan1.next_execution.day) ∧
    (ruleDailyJan1.frequency = "yearly" →
      (5 : Nat) ≤ daysInMonth (2024 + 1) 1 →
      (sweepRule ⟨2024, 1, 5⟩ ruleDailyJan1).2.next_execution =
        ⟨2024 + 1, 1, 5⟩) :=
  advance_computed_from_now ⟨2024, 1, 5⟩ ruleDailyJan1 rfl (by decide)

/-- A rule with the unknown frequency biweekly, used for claim C5. -/
def ruleBiweekly : RecurringTransaction :=
  { ruleJan31 with frequency := "biweekly", next_execution := ⟨2024, 1, 1⟩ }

/-- C5 counterexample: an active due rule with unknown frequency is not
skipped without mutation — the sweep still materializes one transaction and
sets last_execution to the sweep time (it was previously unset). -/
theorem unknown_frequency_cex :
    (sweepRule ⟨2024, 1, 2⟩ ruleBiweekly).1 =
      [materializeTransaction ⟨2024, 1, 2⟩ ruleBiweekly] ∧
    (sweepRule ⟨2024, 1, 2⟩ ruleBiweekly).1.length = 1 ∧
    (sweepRule ⟨2024, 1, 2⟩ ruleBiweekly).2.last_execution = some ⟨2024, 1, 2⟩ ∧
    ruleBiweekly.last_execution = none := by
  decide

/-- C5 amended: for every active due rule whose frequency is none of the
four known values, the sweep does not crash but it does mutate: it
materializes one transaction and sets last_fired_at to the sweep time,
while next_due_at is left unchanged — so the rule stays due and fires again
(one more transaction) on the next sweep; no error is reported. -/
theorem unknown_frequency_still_fires (now : Date) (r : RecurringTransaction)
    (hact : r.is_active = true) (hdue : dateLe r.next_execution now = true)
    (h1 : r.frequency ≠ "daily") (h2 : r.frequency ≠ "weekly")
    (h3 : r.frequency ≠ "monthly") (h4 : r.frequency ≠ "yearly") :
    (sweepRule now r).1 = [materializeTransaction now r] ∧
    (sweepRule now r).2.next_execution = r.next_execution ∧
    (sweepRule now r).2.last_execution = some now ∧
    (sweepRule now r).2.is_active = true ∧
    (sweepRule (addDays now 1) ((sweepRule now r).2)).1.length = 1 := by
  have hadv : advanceRecurring now r = { r with last_execution := some now } := by
    rw [advanceRecurring, if_neg (by simp [h1]), if_neg (by simp [h2]),
      if_neg (by simp [h3]), if_neg (by simp [h4])]
  rw [sweepRule_fires now r hact hdue]
  have hpr : processRule now r =
      ([materializeTransaction now r], { r with last_execution := some now }) := by
    rw [processRule, hadv]
  rw [hpr]
  refine ⟨rfl, rfl, rfl, hact, ?_⟩
  have hdue' : dateLe r.next_execution (addDays now 1) = true := by
    have hstep : dateLe now (addDays now 1) = true := dateLe_nextDay now
    exact dateLe_trans hdue hstep
  rw [sweepRule_fires (addDays now 1) { r with last_execution := some now } hact hdue']
  rfl

/-- Witness for the amended C5: the biweekly rule swept on Jan 2, 2024. -/
theorem unknown_frequency_still_fires_witness :
    (sweepRule ⟨2024, 1, 2⟩ ruleBiweekly).1 =
      [materializeTransaction ⟨2024, 1, 2⟩ ruleBiweekly] ∧
    (sweepRule ⟨2024, 1, 2⟩ ruleBiweekly).2.next_execution =
      ruleBiweekly.next_execution ∧
    (sweepRule ⟨2024, 1, 2⟩ ruleBiweekly).2.last_execution = some ⟨2024, 1, 2⟩ ∧
    (sweepRule ⟨2024, 1, 2⟩ ruleBiweekly).2.is_active = true ∧
    (sweepRule (addDays ⟨2024, 1, 2⟩ 1) ((sweepRule ⟨2024, 1, 2⟩ ruleBiweekly).2)).1.length
      = 1 :=
  unknown_frequency_still_fires ⟨2024, 1, 2⟩ ruleBiweekly rfl (by decide)
    (by decide) (by decide) (by decide) (by decide)

/-- C10: a newly created recurrence rule gets next_due_at = creation time +
exactly one day, whatever the chosen frequency (the `frequency` argument is
not consulted), it is created active, and a sweep one day after creation
fires it, materializing exactly one transaction. -/
theorem save_recurring_first_due_one_day (now : Date) (user_id : Nat)
    (category_id : Option Nat) (amount : Int)
    (transaction_type : TransactionType) (description : Option String)
    (frequency : String) :
    (save_recurring now user_id category_id amount transaction_type description
        frequency).next_execution = addDays now 1 ∧
    (save_recurring now user_id category_id amount transaction_type description
        frequency).is_active = true ∧
    (sweepRule (addDays now 1)
      (save_recurring now user_id category_id amount transaction_type description
        frequency)).1.length = 1 := by
  refine ⟨rfl, rfl, ?_⟩
  rw [sweepRule_fires _ _ rfl (dateLe_refl (addDays now 1))]
  rfl

/-- Result record of `TransactionService.get_balance`
(`src/services/transaction_service.py`, lines 64-92). -/
structure BalanceResult where
  income : Int
  expense : Int
  balance : Int
deriving DecidableEq

/-- SQL `SUM` over a selected column: `NULL` (`none`) on an empty selection,
otherwise the sum. -/
def sqlSum : List Int → Option Int
  | [] => none
  | l => some l.sum

/-- Embedding of the `scalar() or Decimal(0)` idiom: `None` and the falsy
value 0 are both replaced by 0. -/
def orZero : Option Int → Int
  | none => 0
  | some v => if v = 0 then 0 else v

/-- Embedding of `TransactionService.get_balance`: total income, total
expense and their difference for one user, each total computed by a SQL
`SUM` filtered on the user and the transaction type. -/
def get_balance (user_id : Nat) (txs : List Transaction) : BalanceResult :=
  let total_income := orZero (sqlSum
    ((txs.filter (fun t =>
      t.user_id == user_id && t.transaction_type == TransactionType.income)).map
        (fun t => t.amount)))
  let total_expense := orZero (sqlSum
    ((txs.filter (fun t =>
      t.user_id == user_id && t.transaction_type == TransactionType.expense)).map
        (fun t => t.amount)))
  { income := total_income, expense := total_expense,
    balance := total_income - total_expense }

theorem orZero_sqlSum (l : List Int) : orZero (sqlSum l) = l.sum := by
  cases l with
  | nil => rfl
  | cons a l =>
    show orZero (some (a :: l).sum) = (a :: l).sum
    rw [orZero]
    split <;> omega

/-- C6: over the transactions of one owner, `get_balance` returns the sum of
Income amounts, the sum of Expense amounts, and their difference; Transfer
transactions contribute to neither total, and the empty transaction list
yields all-zero totals rather than an error. -/
theorem get_balance_totals (user_id : Nat) (txs : List Transaction)
    (howner : ∀ t ∈ txs, t.user_id = user_id) :
    (get_balance user_id txs).income =
      ((txs.filter (fun t => t.transaction_type == TransactionType.income)).map
        (fun t => t.amount)).sum ∧
    (get_balance user_id txs).expense =
      ((txs.filter (fun t => t.transaction_type == TransactionType.expense)).map
        (fun t => t.amount)).sum ∧
    (get_balance user_id txs).balance =
      (get_balance user_id txs).income - (get_balance user_id txs).expense ∧
    (∀ t : Transaction, t.transaction_type = TransactionType.transfer →
      get_balance user_id (t :: txs) = get_balance user_id txs) ∧
    get_balance user_id ([] : List Transaction) = ⟨0, 0, 0⟩ := by
  have hfi : txs.filter (fun t =>
      t.user_id == user_id && t.transaction_type == TransactionType.income) =
      txs.filter (fun t => t.transaction_type == TransactionType.income) := by
    apply List.filter_congr
    intro t ht
    rw [howner t ht]
    simp
  have hfe : txs.filter (fun t =>
      t.user_id == user_id && t.transaction_type == TransactionType.expense) =
      txs.filter (fun t => t.transaction_type == TransactionType.expense) := by
    apply List.filter_congr
    intro t ht
    rw [howner t ht]
    simp
  refine ⟨?_, ?_, rfl, ?_, rfl⟩
  · show orZero (sqlSum _) = _
    rw [orZero_sqlSum, hfi]
  · show orZero (sqlSum _) = _
    rw [orZero_sqlSum, hfe]
  · intro t httype
    have h1 : ∀ (uid : Nat) (tt : TransactionType), tt ≠ TransactionType.transfer →
        (t :: txs).filter (fun x => x.user_id == uid && x.transaction_type == tt) =
        txs.filter (fun x => x.user_id == uid && x.transaction_type == tt) := by
      intro uid tt htt
      rw [List.filter_cons_of_neg]
      simp only [Bool.and_eq_true, beq_iff_eq, not_and]
      intro _
      rw [httype]
      exact fun h => htt h.symm
    rw [get_balance, get_balance,
      h1 user_id TransactionType.income (by intro h; cases h),
      h1 user_id TransactionType.expense (by intro h; cases h)]

/-- Witness for C6 on a three-transaction history of user 9 containing an
income, an expense and a transfer. -/
theorem get_balance_totals_witness :
    (get_balance 9 [
      ⟨9, none, 700, TransactionType.income, none, ⟨2024, 1, 1⟩⟩,
      ⟨9, none, 250, TransactionType.expense, none, ⟨2024, 1, 2⟩⟩,
      ⟨9, none, 40, TransactionType.transfer, none, ⟨2024, 1, 3⟩⟩]).income =
      (((([⟨9, none, 700, TransactionType.income, none, ⟨2024, 1, 1⟩⟩,
        ⟨9, none, 250, TransactionType.expense, none, ⟨2024, 1, 2⟩⟩,
        ⟨9, none, 40, TransactionType.transfer, none, ⟨2024, 1, 3⟩⟩] :
          List Transaction).filter
        (fun t => t.transaction_type == TransactionType.income)).map
          (fun t => t.amount)).sum) ∧
    (get_balance 9 [
      ⟨9, none, 700, TransactionType.income, none, ⟨2024, 1, 1⟩⟩,
      ⟨9, none, 250, TransactionType.expense, none, ⟨2024, 1, 2⟩⟩,
      ⟨9, none, 40, TransactionType.transfer, none, ⟨2024, 1, 3⟩⟩]).expense =
      (((([⟨9, none, 700, TransactionType.income, none, ⟨2024, 1, 1⟩⟩,
        ⟨9, none, 250, TransactionType.expense, none, ⟨2024, 1, 2⟩⟩,
        ⟨9, none, 40, TransactionType.transfer, none, ⟨2024, 1, 3⟩⟩] :
          List Transaction).filter
        (fun t => t.transaction_type == TransactionType.expense)).map
          (fun t => t.amount)).sum) ∧
    (get_balance 9 [
      ⟨9, none, 700, TransactionType.income, none, ⟨2024, 1, 1⟩⟩,
      ⟨9, none, 250, TransactionType.expense, none, ⟨2024, 1, 2⟩⟩,
      ⟨9, none, 40, TransactionType.transfer, none, ⟨2024, 1, 3⟩⟩]).balance =
      (get_balance 9 [
        ⟨9, none, 700, TransactionType.income, none, ⟨2024, 1, 1⟩⟩,
        ⟨9, none, 250, TransactionType.expense, none, ⟨2024, 1, 2⟩⟩,
        ⟨9, none, 40, TransactionType.transfer, none, ⟨2024, 1, 3⟩⟩]).income -
      (get_balance 9 [
        ⟨9, none, 700, TransactionType.income, none, ⟨2024, 1, 1⟩⟩,
        ⟨9, none, 250, TransactionType.expense, none, ⟨2024, 1, 2⟩⟩,
        ⟨9, none, 40, TransactionType.transfer, none, ⟨2024, 1, 3⟩⟩]).expense ∧
    (∀ t : Transaction, t.transaction_type = TransactionType.transfer →
      get_balance 9 (t :: [
        ⟨9, none, 700, TransactionType.income, none, ⟨2024, 1, 1⟩⟩,
        ⟨9, none, 250, TransactionType.expense, none, ⟨2024, 1, 2⟩⟩,
        ⟨9, none, 40, TransactionType.transfer, none, ⟨2024, 1, 3⟩⟩]) =
      get_balance 9 [
        ⟨9, none, 700, TransactionType.income, none, ⟨2024, 1, 1⟩⟩,
        ⟨9, none, 250, TransactionType.expense, none, ⟨2024, 1, 2⟩⟩,
        ⟨9, none, 40, TransactionType.transfer, none, ⟨2024, 1, 3⟩⟩]) ∧
    get_balance 9 ([] : List Transaction) = ⟨0, 0, 0⟩ :=
  get_balance_totals 9 [
    ⟨9, none, 700, TransactionType.income, none, ⟨2024, 1, 1⟩⟩,
    ⟨9, none, 250, TransactionType.expense, none, ⟨2024, 1, 2⟩⟩,
    ⟨9, none, 40, TransactionType.transfer, none, ⟨2024, 1, 3⟩⟩] (by decide)

end WalletAI
